import Mathlib

/-!
Verification of the notes-sync backend's causality and merge core.

The definitions below are a shallow embedding of the Go sources:
* `pkg/clock` (vector clocks: `VectorClock`, `Compare`, `Update`, `HappensBefore`),
* `pkg/crdt` (`Operation`, `CRDT`, `ApplyOperation`, `rebuildText`, `Merge`,
  `GetOperationsSince`),
* `internal/sync` (`Engine.syncNote`, `Engine.Sync`) over an abstract model of
  the `internal/store` collaborator.

Go maps are embedded as association lists (well-formedness: no duplicate keys);
machine `int64`/`int` as `Int` (no modeled operation overflows); `time.Time`
as an `Int` instant; Go slice indexing that would panic at runtime is embedded
as `Option`, with `none` standing for the panic.
-/

deriving instance DecidableEq for Except

/-- Go `pkg/clock`: `type VectorClock map[string]int64`, embedded as an
association list from client id to counter. -/
abbrev VectorClock := List (String × Int)

/-- Go map read `vc[k]`: the stored value, or 0 when the key is absent. -/
def vcGet (vc : VectorClock) (k : String) : Int :=
  match vc.lookup k with
  | some v => v
  | none => 0

/-- The key set of a clock (Go: `for k := range vc`). -/
def vcKeys (vc : VectorClock) : List String :=
  vc.map Prod.fst

/-- Go map write `vc[k] = v`: replace the first binding of `k`, or append. -/
def vcSet : VectorClock → String → Int → VectorClock
  | [], k, v => [(k, v)]
  | (k', v') :: rest, k, v =>
    if k' = k then (k, v) :: rest else (k', v') :: vcSet rest k v

/-- A Go map has no duplicate keys; association lists representing one are
well-formed in this sense. -/
def vcWF (vc : VectorClock) : Prop := (vcKeys vc).Nodup

/-- `VectorClock.Increment` from `pkg/clock`: `vc[clientID]++`. -/
def VectorClock.Increment (vc : VectorClock) (clientID : String) : VectorClock :=
  vcSet vc clientID (vcGet vc clientID + 1)

/-- `VectorClock.Update` from `pkg/clock`: for each binding of `other`,
`if vc[clientID] < timestamp { vc[clientID] = timestamp }`. -/
def VectorClock.Update (vc other : VectorClock) : VectorClock :=
  other.foldl (fun acc kv => if vcGet acc kv.1 < kv.2 then vcSet acc kv.1 kv.2 else acc) vc

/-- `VectorClock.Copy` from `pkg/clock`; values are immutable here, so the
deep copy is the clock itself. -/
def VectorClock.Copy (vc : VectorClock) : VectorClock := vc

/-- `VectorClock.Compare` from `pkg/clock`: over the union of the key sets,
look for a key strictly smaller on the left and one strictly smaller on the
right; both present means concurrent (0), exactly one gives -1 or 1, neither
means equal (0). -/
def VectorClock.Compare (vc other : VectorClock) : Int :=
  let allKeys := vcKeys vc ++ vcKeys other
  let hasLess := allKeys.any fun k => vcGet vc k < vcGet other k
  let hasGreater := allKeys.any fun k => vcGet vc k > vcGet other k
  if hasLess && hasGreater then 0
  else if hasLess then -1
  else if hasGreater then 1
  else 0

/-- `VectorClock.IsConcurrent` from `pkg/clock`. -/
def VectorClock.IsConcurrent (vc other : VectorClock) : Bool :=
  VectorClock.Compare vc other == 0

/-- `VectorClock.HappensBefore` from `pkg/clock`. -/
def VectorClock.HappensBefore (vc other : VectorClock) : Bool :=
  VectorClock.Compare vc other == -1

-- Keys absent from a clock read as zero.
theorem vcGet_eq_zero_of_not_mem {vc : VectorClock} {k : String}
    (h : k ∉ vcKeys vc) : vcGet vc k = 0 := by
  induction vc with
  | nil => rfl
  | cons kv rest ih =>
    obtain ⟨k', v'⟩ := kv
    simp [vcKeys] at h
    have hne : (k == k') = false := by
      simp [h.1]
    have : k ∉ vcKeys rest := by simp [vcKeys, h.2]
    simpa [vcGet, List.lookup, hne] using ih this

-- The boolean key scan agrees with the existential over all keys.
theorem vc_any_lt_iff (a b : VectorClock) :
    ((vcKeys a ++ vcKeys b).any fun k => vcGet a k < vcGet b k) = true ↔
      ∃ k, vcGet a k < vcGet b k := by
  rw [List.any_eq_true]
  constructor
  · rintro ⟨k, _, hk⟩
    exact ⟨k, by simpa using hk⟩
  · rintro ⟨k, hk⟩
    refine ⟨k, ?_, by simpa using hk⟩
    by_contra hmem
    have ha : k ∉ vcKeys a := fun h => hmem (List.mem_append.mpr (Or.inl h))
    have hb : k ∉ vcKeys b := fun h => hmem (List.mem_append.mpr (Or.inr h))
    rw [vcGet_eq_zero_of_not_mem ha, vcGet_eq_zero_of_not_mem hb] at hk
    exact absurd hk (lt_irrefl 0)

/-- `Operation` from `pkg/crdt`: a single edit. `Timestamp` embeds the
`time.Time` instant as an integer; `Position` is the Go `int`. -/
structure Operation where
  ID : String
  ClientID : String
  Clock : VectorClock
  -- the Go field is named Type; Type is a Lean keyword
  Type' : String
  Position : Int
  Content : String
  Timestamp : Int
deriving DecidableEq, Repr

/-- Go `<` on strings: lexicographic byte order, which over UTF-8 encodings
coincides with lexicographic code-point order. -/
def charListLt : List Char → List Char → Bool
  | [], [] => false
  | [], _ :: _ => true
  | _ :: _, [] => false
  | c :: cs, d :: ds => if c < d then true else if d < c then false else charListLt cs ds

/-- The comparison closure passed to `sort.Slice` in `CRDT.rebuildText`:
vector-clock order first, then wall-clock timestamp for concurrent clocks,
then client id. -/
def opLess (a b : Operation) : Bool :=
  let cmp := VectorClock.Compare a.Clock b.Clock
  if cmp = -1 then true
  else if cmp = 1 then false
  else if a.Timestamp ≠ b.Timestamp then decide (a.Timestamp < b.Timestamp)
  else charListLt a.ClientID.toList b.ClientID.toList

/-- One bubbling step of Go's insertion sort, on a reversed prefix (head =
rightmost element): move `x` left past `z` while `less x z`. -/
def insertRev (less : Operation → Operation → Bool) (x : Operation) :
    List Operation → List Operation
  | [] => [x]
  | z :: zs => if less x z then z :: insertRev less x zs else x :: z :: zs

/-- The sort executed by `sort.Slice` in `rebuildText`. Go's `sort.Slice`
runs plain insertion sort for slices shorter than 12 elements (`pdqsort`
with `length <= 12`), which this reproduces exactly; every concrete input
considered below is in that range. -/
def sortOps (less : Operation → Operation → Bool) (l : List Operation) :
    List Operation :=
  (l.foldl (fun acc x => insertRev less x acc) []).reverse

/-- One iteration of the replay loop in `CRDT.rebuildText`. `none` embeds
the Go runtime panic raised by `text[:op.Position]` when the position is
negative (the bounds checks `op.Position <= len(text)` / `< len(text)` admit
negative positions). -/
def replayStep (text : List Char) (op : Operation) : Option (List Char) :=
  if op.Type' = "insert" then
    if op.Position ≤ (text.length : Int) then
      if 0 ≤ op.Position then
        some (text.take op.Position.toNat ++ op.Content.toList ++ text.drop op.Position.toNat)
      else none
    else some text
  else if op.Type' = "delete" then
    if op.Position < (text.length : Int) then
      if 0 ≤ op.Position then
        some (text.take op.Position.toNat ++ text.drop (op.Position.toNat + 1))
      else none
    else some text
  else some text

/-- The replay phase of `rebuildText`: fold the sorted operations over the
empty text. -/
def replay (ops : List Operation) : Option (List Char) :=
  ops.foldlM replayStep []

/-- `CRDT.rebuildText` from `pkg/crdt`: sort a copy of the log with `opLess`,
then replay from the empty text. -/
def rebuildText (ops : List Operation) : Option String :=
  (replay (sortOps opLess ops)).map List.asString

/-- `CRDT` from `pkg/crdt`. -/
structure CRDT where
  Operations : List Operation
  Text : String
  Clock : VectorClock
deriving DecidableEq, Repr

/-- `NewCRDT` from `pkg/crdt`. -/
def NewCRDT : CRDT :=
  { Operations := [], Text := "", Clock := [] }

/-- `CRDT.ApplyOperation` from `pkg/crdt`: merge the operation's clock
snapshot, append the operation to the log, rebuild the text. `none` embeds a
panic inside `rebuildText`. -/
def CRDT.ApplyOperation (c : CRDT) (op : Operation) : Option CRDT :=
  let clock' := VectorClock.Update c.Clock op.Clock
  let ops' := c.Operations ++ [op]
  match rebuildText ops' with
  | some t => some { Operations := ops', Text := t, Clock := clock' }
  | none => none

/-- `CRDT.ApplyOperations` from `pkg/crdt`: apply in order. -/
def CRDT.ApplyOperations (c : CRDT) (ops : List Operation) : Option CRDT :=
  ops.foldlM CRDT.ApplyOperation c

/-- `CRDT.Merge` from `pkg/crdt`: keep only the other log's operations whose
id is not already present, then apply them. -/
def CRDT.Merge (c other : CRDT) : Option CRDT :=
  let newOps := other.Operations.filter fun op =>
    !(c.Operations.any fun o => o.ID == op.ID)
  c.ApplyOperations newOps

/-- `CRDT.GetOperationsSince` from `pkg/crdt`: keep operations whose clock
does not happen-before `since` and does not compare 0 against it. -/
def CRDT.GetOperationsSince (c : CRDT) (since : VectorClock) : List Operation :=
  c.Operations.filter fun op =>
    !(VectorClock.HappensBefore op.Clock since) &&
      VectorClock.Compare op.Clock since != 0

/-- `Note` from `internal/models`: the external-facing document. `CreatedAt`,
`UpdatedAt` embed `time.Time` instants; `DeletedAt` the nullable pointer. -/
structure Note where
  ID : String
  Title : String
  Content : String
  CRDT : CRDT
  Clock : VectorClock
  CreatedAt : Int
  UpdatedAt : Int
  DeletedAt : Option Int
deriving DecidableEq, Repr

/-- `Conflict` from `internal/models`. -/
structure Conflict where
  NoteID : String
  ClientClock : VectorClock
  ServerClock : VectorClock
  Resolution : String
deriving DecidableEq, Repr

/-- `SyncRequest` from `internal/models`; the `LastSync` map is an
association list from note id to clock. -/
structure SyncRequest where
  ClientID : String
  Notes : List Note
  LastSync : List (String × VectorClock)
deriving DecidableEq, Repr

/-- `SyncResponse` from `internal/models`. -/
structure SyncResponse where
  Notes : List Note
  Conflicts : List Conflict
  Clock : List (String × VectorClock)
deriving DecidableEq, Repr

/-- Model of the `internal/store` collaborator consumed by the sync engine:
an in-memory table of notes keyed by id, plus failure injection standing for
database errors (`failGet` lists ids whose `GetNote` fails, `failSave` ids
whose `SaveNote` fails, `failGetAll` makes `GetAllNotes` fail). -/
structure StoreState where
  notes : List (String × Note)
  failGet : List String
  failSave : List String
  failGetAll : Bool
deriving DecidableEq, Repr

/-- `Store.GetNote`: a note by id, `none` when absent (`sql.ErrNoRows`),
or a storage error. -/
def StoreState.GetNote (s : StoreState) (id : String) :
    Except String (Option Note) :=
  if s.failGet.contains id then .error "storage failure"
  else .ok (s.notes.lookup id)

/-- Upsert a note under its id (`INSERT ... ON CONFLICT(id) DO UPDATE`). -/
def upsertNote : List (String × Note) → Note → List (String × Note)
  | [], n => [(n.ID, n)]
  | (k, n') :: rest, n =>
    if k = n.ID then (k, n) :: rest else (k, n') :: upsertNote rest n

/-- `Store.SaveNote`: persist (insert-or-update) a note, or fail. -/
def StoreState.SaveNote (s : StoreState) (n : Note) :
    Except String StoreState :=
  if s.failSave.contains n.ID then .error "storage failure"
  else .ok { s with notes := upsertNote s.notes n }

/-- `Store.GetAllNotes`: every non-deleted note, or fail. (The SQL orders by
`updated_at DESC`; the order is irrelevant to the properties below and the
table order is kept.) -/
def StoreState.GetAllNotes (s : StoreState) : Except String (List Note) :=
  if s.failGetAll then .error "storage failure"
  else .ok ((s.notes.map Prod.snd).filter fun n => n.DeletedAt = none)

/-- How a call into the sync engine can fail to produce a result. Go
distinguishes these by mechanism, not by value: a `storage` failure is an
`error` return value that callers inspect, while a `panic` (here: the
runtime fault raised by replaying an operation with a negative position)
unwinds the entire call chain — `internal/sync` contains no `recover`, so
no loop can catch it and continue. -/
inductive SyncErr where
  | storage (e : String)
  | panic
deriving DecidableEq, Repr

/-- `Engine.syncNote` from `internal/sync`: reconcile one client-submitted
note against the stored one. `now` stands for `time.Now()`. `clientID` and
`lastSync` are parameters of the Go function that its body never reads. On
the strictly-after and concurrent branches the Go code merges in place and
updates `serverNote.Clock` before building the conflict record, so the
emitted `ServerClock` is the post-merge clock. Storage failures become
`SyncErr.storage` (the wrapped `error` returns); a `none` from `CRDT.Merge`
is the replay panic and becomes `SyncErr.panic`, which unwinds — the Go
`error` result of `Merge` itself is always `nil`. -/
def Engine.syncNote (s : StoreState) (clientNote : Note) (clientID : String)
    (lastSync : VectorClock) (now : Int) :
    Except SyncErr (StoreState × Option Conflict) :=
  match s.GetNote clientNote.ID with
  | .error e => .error (.storage e)
  | .ok none =>
    match s.SaveNote { clientNote with UpdatedAt := now } with
    | .error e => .error (.storage e)
    | .ok s' => .ok (s', none)
  | .ok (some serverNote) =>
    let comparison := VectorClock.Compare clientNote.Clock serverNote.Clock
    if comparison = -1 then
      .ok (s, none)
    else if comparison = 1 then
      match serverNote.CRDT.Merge clientNote.CRDT with
      | none => .error .panic
      | some merged =>
        let updated := { serverNote with
          CRDT := merged
          Clock := VectorClock.Update serverNote.Clock clientNote.Clock
          Content := merged.Text
          UpdatedAt := now }
        match s.SaveNote updated with
        | .error e => .error (.storage e)
        | .ok s' => .ok (s', none)
    else if comparison = 0 then
      match serverNote.CRDT.Merge clientNote.CRDT with
      | none => .error .panic
      | some merged =>
        let updated := { serverNote with
          CRDT := merged
          Clock := VectorClock.Update serverNote.Clock clientNote.Clock
          Content := merged.Text
          UpdatedAt := now }
        match s.SaveNote updated with
        | .error e => .error (.storage e)
        | .ok s' =>
          .ok (s', some { NoteID := clientNote.ID
                          ClientClock := clientNote.Clock
                          ServerClock := updated.Clock
                          Resolution := "merged" })
    else .ok (s, none)

/-- The body of `Engine.Sync`'s per-note loop. The Go loop inspects only
`syncNote`'s returned `error` value: a storage failure is logged and the
note skipped (`continue`, state and conflicts unchanged). A panic is not an
`error` value — it unwinds through the loop and through `Sync` itself, so
it is propagated, never absorbed; once the accumulator carries a panic no
further iteration runs. -/
def Engine.syncStep (clientID : String) (lastSyncMap : List (String × VectorClock))
    (now : Int) (acc : Except SyncErr (StoreState × List Conflict))
    (clientNote : Note) : Except SyncErr (StoreState × List Conflict) :=
  match acc with
  | .error e => .error e
  | .ok (s, conflicts) =>
    match Engine.syncNote s clientNote clientID
        ((lastSyncMap.lookup clientNote.ID).getD []) now with
    | .error (.storage _) => .ok (s, conflicts)
    | .error .panic => .error .panic
    | .ok (s', some conflict) => .ok (s', conflicts ++ [conflict])
    | .ok (s', none) => .ok (s', conflicts)

/-- The body of `Engine.Sync`'s response loop: include a stored note (and
its clock) only when the client never synced it or the stored clock is
strictly after the client's last-seen clock. -/
def Engine.selectNote (lastSyncMap : List (String × VectorClock))
    (acc : List Note × List (String × VectorClock)) (serverNote : Note) :
    List Note × List (String × VectorClock) :=
  match lastSyncMap.lookup serverNote.ID with
  | none => (acc.1 ++ [serverNote], acc.2 ++ [(serverNote.ID, serverNote.Clock)])
  | some lastSync =>
    if VectorClock.Compare serverNote.Clock lastSync = 1 then
      (acc.1 ++ [serverNote], acc.2 ++ [(serverNote.ID, serverNote.Clock)])
    else acc

/-- `Engine.Sync` from `internal/sync`: reconcile every client note (a
storage error from `syncNote` is logged and that note skipped —
`continue` — while a panic unwinds out of `Sync`), collect the conflicts,
then build the response from `GetAllNotes`, keeping a stored note only if
the client never synced it or the stored clock is strictly after the
client's last-seen clock. -/
def Engine.Sync (s : StoreState) (req : SyncRequest) (now : Int) :
    Except SyncErr (StoreState × SyncResponse) :=
  match req.Notes.foldl (Engine.syncStep req.ClientID req.LastSync now)
      (.ok (s, [])) with
  | .error e => .error e
  | .ok (s1, conflicts) =>
    match s1.GetAllNotes with
    | .error e => .error (.storage e)
    | .ok serverNotes =>
      let resp := serverNotes.foldl (Engine.selectNote req.LastSync) ([], [])
      .ok (s1, { Notes := resp.1, Conflicts := conflicts, Clock := resp.2 })

/-! Helper lemmas about the clock embedding. -/

-- All counter values of a clock are non-negative (true of every clock the
-- Go code constructs: counters start at 0, grow by increment and max).
def vcNonneg (vc : VectorClock) : Prop := ∀ kv ∈ vc, (0 : Int) ≤ kv.2

theorem vc_any_gt_iff (a b : VectorClock) :
    ((vcKeys a ++ vcKeys b).any fun k => vcGet a k > vcGet b k) = true ↔
      ∃ k, vcGet b k < vcGet a k := by
  rw [List.any_eq_true]
  constructor
  · rintro ⟨k, _, hk⟩
    exact ⟨k, by simpa using hk⟩
  · rintro ⟨k, hk⟩
    refine ⟨k, ?_, by simpa using hk⟩
    by_contra hmem
    have ha : k ∉ vcKeys a := fun h => hmem (List.mem_append.mpr (Or.inl h))
    have hb : k ∉ vcKeys b := fun h => hmem (List.mem_append.mpr (Or.inr h))
    rw [vcGet_eq_zero_of_not_mem ha, vcGet_eq_zero_of_not_mem hb] at hk
    exact absurd hk (lt_irrefl 0)

theorem vcGet_vcSet_self (vc : VectorClock) (k : String) (v : Int) :
    vcGet (vcSet vc k v) k = v := by
  induction vc with
  | nil => simp [vcSet, vcGet, List.lookup]
  | cons kv rest ih =>
    obtain ⟨k', v'⟩ := kv
    by_cases h : k' = k
    · simp [vcSet, h, vcGet, List.lookup]
    · simp only [vcSet, if_neg h]
      have hne : (k == k') = false := by
        have : k ≠ k' := fun hh => h hh.symm
        simp [this]
      simpa [vcGet, List.lookup, hne] using ih

theorem vcGet_vcSet_ne (vc : VectorClock) (k k' : String) (v : Int)
    (h : k' ≠ k) : vcGet (vcSet vc k v) k' = vcGet vc k' := by
  have hne : (k' == k) = false := by simp [h]
  induction vc with
  | nil => simp [vcSet, vcGet, List.lookup, hne]
  | cons kv rest ih =>
    obtain ⟨k₀, v₀⟩ := kv
    by_cases h₀ : k₀ = k
    · subst h₀
      simp [vcSet, vcGet, List.lookup, hne]
    · simp only [vcSet, if_neg h₀]
      by_cases h₁ : k' = k₀
      · have e₁ : (k' == k₀) = true := by simp [h₁]
        simp [vcGet, List.lookup, e₁]
      · have e₁ : (k' == k₀) = false := by simp [h₁]
        simpa [vcGet, List.lookup, e₁] using ih

theorem vcKeys_vcSet (vc : VectorClock) (k : String) (v : Int)
    (h : k ∈ vcKeys vc) : vcKeys (vcSet vc k v) = vcKeys vc := by
  induction vc with
  | nil => simp [vcKeys] at h
  | cons kv rest ih =>
    obtain ⟨k₀, v₀⟩ := kv
    by_cases h₀ : k₀ = k
    · simp [vcSet, h₀, vcKeys]
    · have : k ∈ vcKeys rest := by
        rcases (by simpa [vcKeys] using h : k = k₀ ∨ k ∈ vcKeys rest) with h₁ | h₁
        · exact absurd h₁.symm h₀
        · exact h₁
      simp only [vcSet, if_neg h₀]
      simpa [vcKeys] using ih this

/-- `Update` computes the component-wise maximum on the keys of `other` and
leaves every other component untouched (for a well-formed `other`). -/
theorem vcGet_Update (vc other : VectorClock) (hWF : vcWF other) (k : String) :
    vcGet (VectorClock.Update vc other) k =
      if k ∈ vcKeys other then max (vcGet vc k) (vcGet other k)
      else vcGet vc k := by
  induction other generalizing vc with
  | nil => simp [VectorClock.Update, vcKeys]
  | cons kv rest ih =>
    obtain ⟨k₀, v₀⟩ := kv
    have hWF' : vcWF rest := (List.nodup_cons.mp hWF).2
    have hnotin : k₀ ∉ vcKeys rest := (List.nodup_cons.mp hWF).1
    have hfold : VectorClock.Update vc ((k₀, v₀) :: rest) =
        VectorClock.Update (if vcGet vc k₀ < v₀ then vcSet vc k₀ v₀ else vc) rest := by
      simp [VectorClock.Update]
    rw [hfold, ih _ hWF']
    by_cases hk : k = k₀
    · subst hk
      have hrest0 : vcGet rest k = 0 := vcGet_eq_zero_of_not_mem hnotin
      have hmem : k ∈ vcKeys ((k, v₀) :: rest) := by simp [vcKeys]
      rw [if_neg (by simpa using hnotin), if_pos hmem]
      have hother : vcGet ((k, v₀) :: rest) k = v₀ := by
        simp [vcGet, List.lookup]
      rw [hother]
      by_cases hlt : vcGet vc k < v₀
      · rw [if_pos hlt, vcGet_vcSet_self]
        omega
      · rw [if_neg hlt]
        omega
    · have hother : vcGet ((k₀, v₀) :: rest) k = vcGet rest k := by
        have : (k == k₀) = false := by simp [hk]
        simp [vcGet, List.lookup, this]
      have hmem : (k ∈ vcKeys ((k₀, v₀) :: rest)) ↔ k ∈ vcKeys rest := by
        simp [vcKeys, hk]
      have hstep : vcGet (if vcGet vc k₀ < v₀ then vcSet vc k₀ v₀ else vc) k = vcGet vc k := by
        by_cases hlt : vcGet vc k₀ < v₀
        · rw [if_pos hlt, vcGet_vcSet_ne _ _ _ _ hk]
        · rw [if_neg hlt]
      rw [hstep, hother]
      by_cases hmem' : k ∈ vcKeys rest
      · rw [if_pos hmem', if_pos (hmem.mpr hmem')]
      · rw [if_neg hmem', if_neg (fun h => hmem' (hmem.mp h))]

theorem vcGet_nonneg {vc : VectorClock} (h : vcNonneg vc) (k : String) :
    0 ≤ vcGet vc k := by
  induction vc with
  | nil => simp [vcGet, List.lookup]
  | cons kv rest ih =>
    obtain ⟨k₀, v₀⟩ := kv
    by_cases hk : k = k₀
    · have e : (k == k₀) = true := by simp [hk]
      have := h (k₀, v₀) (by simp)
      simpa [vcGet, List.lookup, e] using this
    · have e : (k == k₀) = false := by simp [hk]
      have hrest : vcNonneg rest := fun kv hkv => h kv (List.mem_cons_of_mem _ hkv)
      simpa [vcGet, List.lookup, e] using ih hrest

/-! Concrete operations for the convergence analysis: `opB` is causally
after `opA` (same client), `opC` is concurrent with both, and the wall-clock
timestamps order `opB`, then `opC`, then `opA`.  The three-level comparator
then orders `opA` before `opB` (clock), `opB` before `opC` and `opC` before
`opA` (timestamp) — a cycle, so it is not a strict weak order and the sort's
output depends on the log order. -/

def opA : Operation :=
  { ID := "op-a", ClientID := "c1", Clock := [("c1", 1)], Type' := "insert",
    Position := 0, Content := "A", Timestamp := 3 }

def opB : Operation :=
  { ID := "op-b", ClientID := "c1", Clock := [("c1", 2)], Type' := "insert",
    Position := 0, Content := "B", Timestamp := 1 }

def opC : Operation :=
  { ID := "op-c", ClientID := "c2", Clock := [("c2", 1)], Type' := "insert",
    Position := 0, Content := "C", Timestamp := 2 }

/-- C1. Convergence fails: two replicas that applied the same set of three
operations (one pair causally ordered, the third concurrent with both) in
different arrival orders materialize different text — `"CBA"` against
`"ACB"` — because the three-level comparator is cyclic on this set and the
sort is therefore order-of-application-dependent. -/
theorem convergence_counterexample :
    [opA, opB, opC].Perm [opC, opB, opA] ∧
      (NewCRDT.ApplyOperations [opA, opB, opC]).map CRDT.Text = some "CBA" ∧
      (NewCRDT.ApplyOperations [opC, opB, opA]).map CRDT.Text = some "ACB" ∧
      (NewCRDT.ApplyOperations [opA, opB, opC]).map CRDT.Text ≠
        (NewCRDT.ApplyOperations [opC, opB, opA]).map CRDT.Text := by
  refine ⟨by decide, by decide, by decide, by decide⟩

/-- C2. `Compare` over the union of keys (absent keys read as zero): both a
strictly smaller and a strictly greater component give 0 (concurrent); only
a smaller one gives -1; only a greater one gives 1; neither gives 0
(equality). -/
theorem compare_cases (a b : VectorClock) :
    ((∃ k, vcGet a k < vcGet b k) → (∃ k, vcGet b k < vcGet a k) →
      VectorClock.Compare a b = 0) ∧
    ((∃ k, vcGet a k < vcGet b k) → ¬(∃ k, vcGet b k < vcGet a k) →
      VectorClock.Compare a b = -1) ∧
    (¬(∃ k, vcGet a k < vcGet b k) → (∃ k, vcGet b k < vcGet a k) →
      VectorClock.Compare a b = 1) ∧
    (¬(∃ k, vcGet a k < vcGet b k) → ¬(∃ k, vcGet b k < vcGet a k) →
      VectorClock.Compare a b = 0) := by
  refine ⟨?_, ?_, ?_, ?_⟩ <;> intro h1 h2
  · have e1 := (vc_any_lt_iff a b).mpr h1
    have e2 := (vc_any_gt_iff a b).mpr h2
    simp [VectorClock.Compare, e1, e2]
  · have e1 := (vc_any_lt_iff a b).mpr h1
    have e2 : ((vcKeys a ++ vcKeys b).any fun k => vcGet a k > vcGet b k) = false :=
      Bool.eq_false_iff.mpr fun h => h2 ((vc_any_gt_iff a b).mp h)
    simp [VectorClock.Compare, e1, e2]
  · have e1 : ((vcKeys a ++ vcKeys b).any fun k => vcGet a k < vcGet b k) = false :=
      Bool.eq_false_iff.mpr fun h => h1 ((vc_any_lt_iff a b).mp h)
    have e2 := (vc_any_gt_iff a b).mpr h2
    simp [VectorClock.Compare, e1, e2]
  · have e1 : ((vcKeys a ++ vcKeys b).any fun k => vcGet a k < vcGet b k) = false :=
      Bool.eq_false_iff.mpr fun h => h1 ((vc_any_lt_iff a b).mp h)
    have e2 : ((vcKeys a ++ vcKeys b).any fun k => vcGet a k > vcGet b k) = false :=
      Bool.eq_false_iff.mpr fun h => h2 ((vc_any_gt_iff a b).mp h)
    simp [VectorClock.Compare, e1, e2]

/-- Witness for C2 at concrete clocks: `{a:1}` and `{b:1}` are concurrent,
`{a:1}` is strictly before `{a:2}`, and equal clocks compare 0. -/
theorem compare_cases_witness :
    VectorClock.Compare [("a", 1)] [("b", 1)] = 0 ∧
      VectorClock.Compare [("a", 1)] [("a", 2)] = -1 ∧
      VectorClock.Compare [("a", 2)] [("a", 1)] = 1 ∧
      VectorClock.Compare [("a", 1)] [("a", 1)] = 0 := by
  refine ⟨?_, ?_, ?_, ?_⟩
  · exact (compare_cases [("a", 1)] [("b", 1)]).1
      ⟨"b", by decide⟩ ⟨"a", by decide⟩
  · refine (compare_cases [("a", 1)] [("a", 2)]).2.1 ⟨"a", by decide⟩ ?_
    rintro ⟨k, hk⟩
    by_cases h : k = "a"
    · subst h; exact absurd hk (by decide)
    · rw [vcGet_eq_zero_of_not_mem (by simp [vcKeys, h]),
        vcGet_eq_zero_of_not_mem (by simp [vcKeys, h])] at hk
      exact absurd hk (lt_irrefl 0)
  · refine (compare_cases [("a", 2)] [("a", 1)]).2.2.1 ?_ ⟨"a", by decide⟩
    rintro ⟨k, hk⟩
    by_cases h : k = "a"
    · subst h; exact absurd hk (by decide)
    · rw [vcGet_eq_zero_of_not_mem (by simp [vcKeys, h]),
        vcGet_eq_zero_of_not_mem (by simp [vcKeys, h])] at hk
      exact absurd hk (lt_irrefl 0)
  · exact (compare_cases [("a", 1)] [("a", 1)]).2.2.2
      (by rintro ⟨k, hk⟩; exact absurd hk (lt_irrefl _))
      (by rintro ⟨k, hk⟩; exact absurd hk (lt_irrefl _))

/-! Merge and apply. -/

-- A successful apply appends the operation to the log and absorbs its
-- clock snapshot.
theorem applyOperation_some {c c' : CRDT} {op : Operation}
    (h : c.ApplyOperation op = some c') :
    c'.Operations = c.Operations ++ [op] ∧
      c'.Clock = VectorClock.Update c.Clock op.Clock := by
  unfold CRDT.ApplyOperation at h
  cases hre : rebuildText (c.Operations ++ [op]) with
  | none => simp [hre] at h
  | some t =>
    simp only [hre] at h
    cases h
    exact ⟨rfl, rfl⟩

-- A successful batch apply appends all the operations in order.
theorem applyOperations_ops {ops : List Operation} :
    ∀ {c c' : CRDT}, c.ApplyOperations ops = some c' →
      c'.Operations = c.Operations ++ ops := by
  induction ops with
  | nil =>
    intro c c' h
    simp [CRDT.ApplyOperations, List.foldlM] at h
    simp [h]
  | cons op rest ih =>
    intro c c' h
    simp only [CRDT.ApplyOperations, List.foldlM] at h
    cases h1 : c.ApplyOperation op with
    | none => rw [h1] at h; simp at h
    | some c₁ =>
      rw [h1] at h
      have h2 := @ih c₁ c' h
      rw [h2, (applyOperation_some h1).1, List.append_assoc]
      rfl

/-- C3. Merging the same source twice is idempotent: a second
`Merge` of `s` into the result of a first `Merge` of `s` adds no
operation (the id-presence check filters everything out), so the operation
count and the text are unchanged. -/
theorem merge_idempotent (c s m : CRDT) (h : c.Merge s = some m) :
    ∃ m₂, m.Merge s = some m₂ ∧
      m₂.Operations.length = m.Operations.length ∧ m₂.Text = m.Text := by
  refine ⟨m, ?_, rfl, rfl⟩
  unfold CRDT.Merge at h ⊢
  have hops := applyOperations_ops h
  have hfilter : (s.Operations.filter fun op =>
      !(m.Operations.any fun o => o.ID == op.ID)) = [] := by
    rw [List.filter_eq_nil]
    intro op hop
    simp only [Bool.not_eq_true', Bool.not_eq_false]
    rw [List.any_eq_true]
    by_cases hin : (c.Operations.any fun o => o.ID == op.ID) = true
    · obtain ⟨o, ho, hid⟩ := List.any_eq_true.mp hin
      exact ⟨o, by rw [hops]; exact List.mem_append.mpr (Or.inl ho), hid⟩
    · have hkeep : op ∈ s.Operations.filter fun op =>
          !(c.Operations.any fun o => o.ID == op.ID) := by
        rw [List.mem_filter]
        exact ⟨hop, by simp [hin]⟩
      refine ⟨op, ?_, by simp⟩
      rw [hops]
      exact List.mem_append.mpr (Or.inr hkeep)
  rw [hfilter]
  rfl

/-- Witness for C3: a merge of two singleton logs, merged again. -/
theorem merge_idempotent_witness :
    ∃ m₂, ((CRDT.Merge { Operations := [opA], Text := "A", Clock := [("c1", 1)] }
        { Operations := [opC], Text := "C", Clock := [("c2", 1)] }).bind
      fun m => m.Merge { Operations := [opC], Text := "C", Clock := [("c2", 1)] }) =
        some m₂ := by
  have h : CRDT.Merge { Operations := [opA], Text := "A", Clock := [("c1", 1)] }
      { Operations := [opC], Text := "C", Clock := [("c2", 1)] } =
      some { Operations := [opA, opC], Text := "AC",
             Clock := [("c1", 1), ("c2", 1)] } := by decide
  obtain ⟨m₂, hm₂, -, -⟩ := merge_idempotent _ _ _ h
  exact ⟨m₂, by rw [h, Option.some_bind', hm₂]⟩

/-- C4. The direct apply path is not idempotent: applying the same
operation twice appends it to the log twice — the count grows by two — with
no identity check. -/
theorem apply_twice_appends_twice (c c₁ c₂ : CRDT) (op : Operation)
    (h₁ : c.ApplyOperation op = some c₁) (h₂ : c₁.ApplyOperation op = some c₂) :
    c₂.Operations.length = c.Operations.length + 2 := by
  rw [(applyOperation_some h₂).1, (applyOperation_some h₁).1]
  simp

/-- Witness for C4: applying the same insert twice to an empty CRDT leaves
two copies in the log. -/
theorem apply_twice_appends_twice_witness :
    ∃ c₁ c₂ : CRDT, NewCRDT.ApplyOperation opA = some c₁ ∧
      c₁.ApplyOperation opA = some c₂ ∧ c₂.Operations.length = 0 + 2 := by
  have h₁ : NewCRDT.ApplyOperation opA =
      some { Operations := [opA], Text := "A", Clock := [("c1", 1)] } := by decide
  have h₂ : CRDT.ApplyOperation
      { Operations := [opA], Text := "A", Clock := [("c1", 1)] } opA =
      some { Operations := [opA, opA], Text := "AA", Clock := [("c1", 1)] } := by decide
  exact ⟨_, _, h₁, h₂, apply_twice_appends_twice _ _ _ _ h₁ h₂⟩

/-! Boundary behavior of the replay loop. -/

def negDeleteOp : Operation :=
  { ID := "op-neg", ClientID := "c1", Clock := [("c1", 1)], Type' := "delete",
    Position := -1, Content := "", Timestamp := 0 }

/-- C5 counterexample. A delete at the negative position -1 against the
one-character text `"a"` is not silently skipped: the bounds check
`op.Position < len(text)` passes and the slice expression `text[:-1]` then
panics (embedded as `none`), so the replay step neither leaves the text
unchanged nor terminates normally. -/
theorem boundary_skip_counterexample :
    replayStep "a".toList negDeleteOp = none ∧
      replayStep "a".toList negDeleteOp ≠ some "a".toList := by
  exact ⟨by decide, by decide⟩

/-- C5 amended. Out-of-range positions are silently skipped only when they
are non-negative: an insert whose position exceeds the text length and a
delete whose position is at or beyond the text length leave the text
unchanged with no error, while a negative position on either kind makes the
replay step panic (`none`); independently, a successful `ApplyOperation`
always appends the operation to the log and always absorbs its clock
snapshot, whether or not the replay skipped it. -/
theorem boundary_skip_amended (text : List Char) (op : Operation) (c c' : CRDT) :
    (op.Type' = "insert" → (text.length : Int) < op.Position →
      replayStep text op = some text) ∧
    (op.Type' = "delete" → (text.length : Int) ≤ op.Position →
      replayStep text op = some text) ∧
    (op.Position < 0 → op.Type' = "insert" ∨ op.Type' = "delete" →
      replayStep text op = none) ∧
    (c.ApplyOperation op = some c' →
      c'.Operations = c.Operations ++ [op] ∧
        c'.Clock = VectorClock.Update c.Clock op.Clock) := by
  refine ⟨?_, ?_, ?_, fun h => applyOperation_some h⟩
  · intro hins hpos
    rw [replayStep, if_pos hins, if_neg (by omega)]
  · intro hdel hpos
    have hne : ¬ op.Type' = "insert" := by
      rw [hdel]; decide
    rw [replayStep, if_neg hne, if_pos hdel, if_neg (by omega)]
  · intro hneg hkind
    rcases hkind with hins | hdel
    · rw [replayStep, if_pos hins, if_pos (by omega), if_neg (by omega)]
    · have hne : ¬ op.Type' = "insert" := by
        rw [hdel]; decide
      rw [replayStep, if_neg hne, if_pos hdel, if_pos (by omega), if_neg (by omega)]

/-- Witness for C5 amended: an insert beyond the end and a delete at the
end are skipped on `"ab"`; an insert at -1 panics; an apply whose insert
position 5 exceeds the empty text still logs the operation and updates the
clock while leaving the text empty. -/
theorem boundary_skip_amended_witness :
    replayStep "ab".toList
        { ID := "i", ClientID := "c1", Clock := [], Type' := "insert",
          Position := 3, Content := "x", Timestamp := 0 } = some "ab".toList ∧
      replayStep "ab".toList
        { ID := "d", ClientID := "c1", Clock := [], Type' := "delete",
          Position := 2, Content := "", Timestamp := 0 } = some "ab".toList ∧
      replayStep "ab".toList
        { ID := "i2", ClientID := "c1", Clock := [], Type' := "insert",
          Position := -1, Content := "x", Timestamp := 0 } = none ∧
      (NewCRDT.ApplyOperation
          { ID := "i3", ClientID := "c1", Clock := [("c1", 1)], Type' := "insert",
            Position := 5, Content := "x", Timestamp := 0 }).map
        (fun c => (c.Operations.length, c.Text, c.Clock)) =
          some (1, "", [("c1", 1)]) := by
  refine ⟨?_, ?_, ?_, by decide⟩
  · exact (boundary_skip_amended "ab".toList _ NewCRDT NewCRDT).1 rfl (by decide)
  · exact (boundary_skip_amended "ab".toList _ NewCRDT NewCRDT).2.1 rfl (by decide)
  · exact (boundary_skip_amended "ab".toList _ NewCRDT NewCRDT).2.2.1 (by decide)
      (Or.inl rfl)

/-! Incremental catch-up. -/

def sinceExOp : Operation :=
  { ID := "op-x", ClientID := "c2", Clock := [("c2", 1)], Type' := "insert",
    Position := 0, Content := "X", Timestamp := 0 }

def sinceExCRDT : CRDT :=
  { Operations := [sinceExOp], Text := "X", Clock := [("c2", 1)] }

/-- C8. `GetOperationsSince` drops concurrent operations: against the clock
`{c1:1}`, the logged operation's snapshot `{c2:1}` is neither strictly
before it nor equal to it (each clock has a component strictly above the
other), yet the returned set is empty — the filter
`!HappensBefore && Compare != 0` only ever keeps operations that compare
strictly after, contradicting the in-code comment "If the operation's
clock is not before or equal to 'since', include it". -/
theorem operations_since_drops_concurrent :
    sinceExCRDT.GetOperationsSince [("c1", 1)] = [] ∧
      VectorClock.Compare sinceExOp.Clock [("c1", 1)] = 0 ∧
      vcGet [("c1", 1)] "c2" < vcGet sinceExOp.Clock "c2" ∧
      vcGet sinceExOp.Clock "c1" < vcGet [("c1", 1)] "c1" := by
  exact ⟨by decide, by decide, by decide, by decide⟩

/-! The synchronization engine. -/

/-- C6. Causal discard: when the incoming clock compares strictly before
the stored note's clock, `syncNote` returns the store state unchanged (no
merge, no content change, no write) and no conflict record. -/
theorem causal_discard (s : StoreState) (clientNote serverNote : Note)
    (clientID : String) (lastSync : VectorClock) (now : Int)
    (hGet : s.GetNote clientNote.ID = .ok (some serverNote))
    (hCmp : VectorClock.Compare clientNote.Clock serverNote.Clock = -1) :
    Engine.syncNote s clientNote clientID lastSync now = .ok (s, none) := by
  unfold Engine.syncNote
  rw [hGet]
  simp [hCmp]

def serverNoteC6 : Note :=
  { ID := "n", Title := "t", Content := "S", CRDT := NewCRDT,
    Clock := [("a", 2)], CreatedAt := 0, UpdatedAt := 0, DeletedAt := none }

def clientNoteC6 : Note :=
  { ID := "n", Title := "t", Content := "C", CRDT := NewCRDT,
    Clock := [("a", 1)], CreatedAt := 0, UpdatedAt := 0, DeletedAt := none }

def storeC6 : StoreState :=
  { notes := [("n", serverNoteC6)], failGet := [], failSave := [],
    failGetAll := false }

/-- Witness for C6: a client at `{a:1}` against a stored note at `{a:2}`. -/
theorem causal_discard_witness :
    Engine.syncNote storeC6 clientNoteC6 "a" [] 7 = .ok (storeC6, none) :=
  causal_discard storeC6 clientNoteC6 serverNoteC6 "a" [] 7 rfl (by decide)

-- Inversion of the concurrent branch: a conflict comes out of `syncNote`
-- only from the comparison-0 branch, and it carries the client clock and
-- the post-merge server clock.
theorem syncNote_conflict_inv {s : StoreState} {clientNote : Note}
    {clientID : String} {lastSync : VectorClock} {now : Int}
    {s' : StoreState} {conflict : Conflict}
    (h : Engine.syncNote s clientNote clientID lastSync now =
      .ok (s', some conflict)) :
    ∃ serverNote merged,
      s.GetNote clientNote.ID = .ok (some serverNote) ∧
      VectorClock.Compare clientNote.Clock serverNote.Clock = 0 ∧
      serverNote.CRDT.Merge clientNote.CRDT = some merged ∧
      conflict = { NoteID := clientNote.ID
                   ClientClock := clientNote.Clock
                   ServerClock := VectorClock.Update serverNote.Clock clientNote.Clock
                   Resolution := "merged" } ∧
      s' = { s with notes := (upsertNote s.notes
               { serverNote with CRDT := merged
                                 Clock := VectorClock.Update serverNote.Clock clientNote.Clock
                                 Content := merged.Text
                                 UpdatedAt := now }) } := by
  unfold Engine.syncNote at h
  cases hGet : s.GetNote clientNote.ID with
  | error e => rw [hGet] at h; cases h
  | ok serverNote? =>
    rw [hGet] at h
    cases serverNote? with
    | none =>
      cases hSave : s.SaveNote { clientNote with UpdatedAt := now } with
      | error e => rw [hSave] at h; cases h
      | ok s₂ => rw [hSave] at h; simp at h
    | some serverNote =>
      simp only at h
      by_cases h1 : VectorClock.Compare clientNote.Clock serverNote.Clock = -1
      · rw [if_pos h1] at h; simp at h
      · rw [if_neg h1] at h
        by_cases h2 : VectorClock.Compare clientNote.Clock serverNote.Clock = 1
        · rw [if_pos h2] at h
          cases hM : serverNote.CRDT.Merge clientNote.CRDT with
          | none => rw [hM] at h; cases h
          | some merged =>
            rw [hM] at h
            simp only at h
            cases hSave : s.SaveNote { serverNote with
                CRDT := merged
                Clock := VectorClock.Update serverNote.Clock clientNote.Clock
                Content := merged.Text
                UpdatedAt := now } with
            | error e => rw [hSave] at h; cases h
            | ok s₂ => rw [hSave] at h; simp at h
        · rw [if_neg h2] at h
          by_cases h3 : VectorClock.Compare clientNote.Clock serverNote.Clock = 0
          · rw [if_pos h3] at h
            cases hM : serverNote.CRDT.Merge clientNote.CRDT with
            | none => rw [hM] at h; cases h
            | some merged =>
              rw [hM] at h
              simp only at h
              cases hSave : s.SaveNote { serverNote with
                  CRDT := merged
                  Clock := VectorClock.Update serverNote.Clock clientNote.Clock
                  Content := merged.Text
                  UpdatedAt := now } with
              | error e => rw [hSave] at h; cases h
              | ok s₂ =>
                rw [hSave] at h
                refine ⟨serverNote, merged, rfl, h3, hM, ?_, ?_⟩
                · cases h; rfl
                · cases h
                  unfold StoreState.SaveNote at hSave
                  by_cases hf : s.failSave.contains
                      ({ serverNote with
                         CRDT := merged
                         Clock := VectorClock.Update serverNote.Clock clientNote.Clock
                         Content := merged.Text
                         UpdatedAt := now } : Note).ID
                  · rw [if_pos hf] at hSave; cases hSave
                  · rw [if_neg hf] at hSave; cases hSave; rfl
          · rw [if_neg h3] at h; simp at h

/-- C7. Conflict emission: on the concurrent-or-equal branch (comparison 0)
with the store write succeeding, `syncNote` emits exactly one conflict
record, with resolution `"merged"`, and persists the merged note;
conversely a conflict only ever comes out of that branch. -/
theorem conflict_emission (s : StoreState) (clientNote : Note)
    (clientID : String) (lastSync : VectorClock) (now : Int) :
    (∀ serverNote merged,
      s.GetNote clientNote.ID = .ok (some serverNote) →
      VectorClock.Compare clientNote.Clock serverNote.Clock = 0 →
      serverNote.CRDT.Merge clientNote.CRDT = some merged →
      s.failSave.contains serverNote.ID = false →
      Engine.syncNote s clientNote clientID lastSync now =
        .ok ({ s with notes := (upsertNote s.notes
                 { serverNote with CRDT := merged
                                   Clock := VectorClock.Update serverNote.Clock clientNote.Clock
                                   Content := merged.Text
                                   UpdatedAt := now }) },
             some { NoteID := clientNote.ID
                    ClientClock := clientNote.Clock
                    ServerClock := VectorClock.Update serverNote.Clock clientNote.Clock
                    Resolution := "merged" })) ∧
    (∀ s' conflict,
      Engine.syncNote s clientNote clientID lastSync now = .ok (s', some conflict) →
      conflict.Resolution = "merged" ∧
      ∃ serverNote, s.GetNote clientNote.ID = .ok (some serverNote) ∧
        VectorClock.Compare clientNote.Clock serverNote.Clock = 0) := by
  constructor
  · intro serverNote merged hGet hCmp hMerge hSave
    unfold Engine.syncNote
    rw [hGet]
    simp only
    rw [if_neg (by rw [hCmp]; decide), if_neg (by rw [hCmp]; decide),
      if_pos hCmp, hMerge]
    simp only
    unfold StoreState.SaveNote
    rw [if_neg (by simpa using hSave)]
  · intro s' conflict h
    obtain ⟨serverNote, merged, hGet, hCmp, hMerge, hConf, hS⟩ :=
      syncNote_conflict_inv h
    exact ⟨by rw [hConf], serverNote, hGet, hCmp⟩

def opS : Operation :=
  { ID := "op-s", ClientID := "b", Clock := [("b", 1)], Type' := "insert",
    Position := 0, Content := "S", Timestamp := 2 }

def opY : Operation :=
  { ID := "op-y", ClientID := "a", Clock := [("a", 1)], Type' := "insert",
    Position := 0, Content := "Y", Timestamp := 1 }

def serverNoteC7 : Note :=
  { ID := "n", Title := "t", Content := "S"
    CRDT := { Operations := [opS], Text := "S", Clock := [("b", 1)] }
    Clock := [("b", 1)], CreatedAt := 0, UpdatedAt := 0, DeletedAt := none }

def clientNoteC7 : Note :=
  { ID := "n", Title := "t", Content := "Y"
    CRDT := { Operations := [opY], Text := "Y", Clock := [("a", 1)] }
    Clock := [("a", 1)], CreatedAt := 0, UpdatedAt := 0, DeletedAt := none }

def storeC7 : StoreState :=
  { notes := [("n", serverNoteC7)], failGet := [], failSave := [],
    failGetAll := false }

def mergedC7 : CRDT :=
  { Operations := [opS, opY], Text := "SY", Clock := [("b", 1), ("a", 1)] }

/-- Witness for C7: concurrent clocks `{a:1}` and `{b:1}` on note `"n"`
produce one `"merged"` conflict and persist the merged text `"SY"`. -/
theorem conflict_emission_witness :
    Engine.syncNote storeC7 clientNoteC7 "a" [] 9 =
      .ok ({ storeC7 with notes := (upsertNote storeC7.notes
               { serverNoteC7 with CRDT := mergedC7
                                   Clock := VectorClock.Update serverNoteC7.Clock clientNoteC7.Clock
                                   Content := mergedC7.Text
                                   UpdatedAt := 9 }) },
           some { NoteID := clientNoteC7.ID
                  ClientClock := clientNoteC7.Clock
                  ServerClock := VectorClock.Update serverNoteC7.Clock clientNoteC7.Clock
                  Resolution := "merged" }) :=
  (conflict_emission storeC7 clientNoteC7 "a" [] 9).1 serverNoteC7 mergedC7
    rfl (by decide) (by decide) rfl

-- A successful map lookup means the binding is in the table.
theorem notes_lookup_mem :
    ∀ {l : List (String × Note)} {k : String} {v : Note},
      l.lookup k = some v → (k, v) ∈ l := by
  intro l
  induction l with
  | nil => intro k v h; simp [List.lookup] at h
  | cons kv rest ih =>
    intro k v h
    obtain ⟨k₀, v₀⟩ := kv
    by_cases hk : k = k₀
    · subst hk
      simp [List.lookup] at h
      simp [h]
    · have e : (k == k₀) = false := by simp [hk]
      simp only [List.lookup, e] at h
      exact List.mem_cons_of_mem _ (ih h)

/-- C10. The conflict record built on the concurrent branch reports the
post-merge server clock: its `ServerClock` is the stored clock after
absorbing the client clock — the component-wise maximum — so the reported
client clock is before-or-equal to the reported server clock at every
component, and the two are never concurrent (no component of either is
strictly above the other in both directions). Hypotheses: the client clock
has no duplicate keys and the stored clocks have non-negative counters,
both invariants of every clock the Go code builds. -/
theorem conflict_reports_postmerge_clock (s : StoreState) (clientNote : Note)
    (clientID : String) (lastSync : VectorClock) (now : Int)
    (s' : StoreState) (conflict : Conflict)
    (hWF : vcWF clientNote.Clock)
    (hNN : ∀ kv ∈ s.notes, vcNonneg kv.2.Clock)
    (hRun : Engine.syncNote s clientNote clientID lastSync now =
      .ok (s', some conflict)) :
    conflict.ClientClock = clientNote.Clock ∧
    (∃ serverNote, s.GetNote clientNote.ID = .ok (some serverNote) ∧
      conflict.ServerClock = VectorClock.Update serverNote.Clock clientNote.Clock ∧
      (∀ k, vcGet conflict.ServerClock k =
        max (vcGet serverNote.Clock k) (vcGet clientNote.Clock k))) ∧
    (∀ k, vcGet conflict.ClientClock k ≤ vcGet conflict.ServerClock k) ∧
    ¬((∃ k, vcGet conflict.ClientClock k < vcGet conflict.ServerClock k) ∧
      (∃ k, vcGet conflict.ServerClock k < vcGet conflict.ClientClock k)) := by
  obtain ⟨serverNote, merged, hGet, hCmp, hMerge, hConf, hS⟩ :=
    syncNote_conflict_inv hRun
  have hNNs : vcNonneg serverNote.Clock := by
    have hmem : (clientNote.ID, serverNote) ∈ s.notes := by
      unfold StoreState.GetNote at hGet
      by_cases hf : s.failGet.contains clientNote.ID
      · rw [if_pos hf] at hGet; cases hGet
      · rw [if_neg hf] at hGet
        injection hGet with hGet
        exact notes_lookup_mem hGet
    exact hNN _ hmem
  subst hConf
  have hmax : ∀ k, vcGet (VectorClock.Update serverNote.Clock clientNote.Clock) k =
      max (vcGet serverNote.Clock k) (vcGet clientNote.Clock k) := by
    intro k
    rw [vcGet_Update _ _ hWF k]
    by_cases hk : k ∈ vcKeys clientNote.Clock
    · rw [if_pos hk]
    · rw [if_neg hk, vcGet_eq_zero_of_not_mem hk]
      have := vcGet_nonneg hNNs k
      omega
  refine ⟨rfl, ⟨serverNote, hGet, rfl, hmax⟩, ?_, ?_⟩
  · intro k
    rw [hmax k]
    exact le_max_right _ _
  · rintro ⟨-, ⟨k, hk⟩⟩
    simp only at hk
    rw [hmax k] at hk
    have h2 := le_max_right (vcGet serverNote.Clock k) (vcGet clientNote.Clock k)
    omega

def conflictC10 : Conflict :=
  { NoteID := "n", ClientClock := [("a", 1)],
    ServerClock := [("b", 1), ("a", 1)], Resolution := "merged" }

def storeC10' : StoreState :=
  { notes := [("n",
      { ID := "n", Title := "t", Content := "SY"
        CRDT := mergedC7
        Clock := [("b", 1), ("a", 1)], CreatedAt := 0, UpdatedAt := 9
        DeletedAt := none })]
    failGet := [], failSave := [], failGetAll := false }

/-- Witness for C10 on the same concurrent scenario as C7's witness. -/
theorem conflict_reports_postmerge_clock_witness :
    conflictC10.ClientClock = clientNoteC7.Clock ∧
    (∃ serverNote, storeC7.GetNote clientNoteC7.ID = .ok (some serverNote) ∧
      conflictC10.ServerClock = VectorClock.Update serverNote.Clock clientNoteC7.Clock ∧
      (∀ k, vcGet conflictC10.ServerClock k =
        max (vcGet serverNote.Clock k) (vcGet clientNoteC7.Clock k))) ∧
    (∀ k, vcGet conflictC10.ClientClock k ≤ vcGet conflictC10.ServerClock k) ∧
    ¬((∃ k, vcGet conflictC10.ClientClock k < vcGet conflictC10.ServerClock k) ∧
      (∃ k, vcGet conflictC10.ServerClock k < vcGet conflictC10.ClientClock k)) :=
  conflict_reports_postmerge_clock storeC7 clientNoteC7 "a" [] 9 storeC10'
    conflictC10 (by unfold vcWF; decide)
    (by
      intro kv hkv
      simp only [storeC7, List.mem_singleton] at hkv
      subst hkv
      simp only [vcNonneg]
      decide) rfl

/-! Storage-failure behavior of the batch reconciliation. -/

def noteC9 : Note :=
  { ID := "n", Title := "t", Content := "S", CRDT := NewCRDT,
    Clock := [("a", 1)], CreatedAt := 0, UpdatedAt := 0, DeletedAt := none }

def clientNoteC9 : Note :=
  { ID := "n", Title := "t", Content := "C", CRDT := NewCRDT,
    Clock := [("a", 2)], CreatedAt := 0, UpdatedAt := 0, DeletedAt := none }

def storeC9 : StoreState :=
  { notes := [("n", noteC9)], failGet := ["n"], failSave := [],
    failGetAll := false }

def reqC9 : SyncRequest :=
  { ClientID := "a", Notes := [clientNoteC9], LastSync := [] }

/-- C9 counterexample. With the store failing to load note `"n"`,
`syncNote` for that note fails with the storage error, yet `Engine.Sync`
completes successfully (`for ... { log; continue }` swallows the error):
the batch call returns an ok response that simply omits the failed note's
reconciliation. -/
theorem sync_swallows_storage_failure :
    Engine.syncNote storeC9 clientNoteC9 "a" [] 0 =
        .error (.storage "storage failure") ∧
      Engine.Sync storeC9 reqC9 0 =
        .ok (storeC9, { Notes := [noteC9], Conflicts := []
                        Clock := [("n", [("a", 1)])] }) := by
  exact ⟨by decide, by decide⟩

-- `SaveNote` never touches the failure-injection fields.
theorem saveNote_preserves_failGetAll {s s' : StoreState} {n : Note}
    (h : s.SaveNote n = .ok s') : s'.failGetAll = s.failGetAll := by
  unfold StoreState.SaveNote at h
  by_cases hf : s.failSave.contains n.ID
  · rw [if_pos hf] at h; cases h
  · rw [if_neg hf] at h; cases h; rfl

-- `syncNote` never touches the `GetAllNotes` failure flag.
theorem syncNote_preserves_failGetAll {s s' : StoreState} {clientNote : Note}
    {clientID : String} {lastSync : VectorClock} {now : Int}
    {c : Option Conflict}
    (h : Engine.syncNote s clientNote clientID lastSync now = .ok (s', c)) :
    s'.failGetAll = s.failGetAll := by
  unfold Engine.syncNote at h
  cases hGet : s.GetNote clientNote.ID with
  | error e => rw [hGet] at h; cases h
  | ok serverNote? =>
    rw [hGet] at h
    cases serverNote? with
    | none =>
      cases hSave : s.SaveNote { clientNote with UpdatedAt := now } with
      | error e => rw [hSave] at h; cases h
      | ok s₂ =>
        rw [hSave] at h
        cases h
        exact saveNote_preserves_failGetAll hSave
    | some serverNote =>
      simp only at h
      by_cases h1 : VectorClock.Compare clientNote.Clock serverNote.Clock = -1
      · rw [if_pos h1] at h; cases h; rfl
      · rw [if_neg h1] at h
        by_cases h2 : VectorClock.Compare clientNote.Clock serverNote.Clock = 1
        · rw [if_pos h2] at h
          cases hM : serverNote.CRDT.Merge clientNote.CRDT with
          | none => rw [hM] at h; cases h
          | some merged =>
            rw [hM] at h
            simp only at h
            cases hSave : s.SaveNote { serverNote with
                CRDT := merged
                Clock := VectorClock.Update serverNote.Clock clientNote.Clock
                Content := merged.Text
                UpdatedAt := now } with
            | error e => rw [hSave] at h; cases h
            | ok s₂ =>
              rw [hSave] at h
              cases h
              exact saveNote_preserves_failGetAll hSave
        · rw [if_neg h2] at h
          by_cases h3 : VectorClock.Compare clientNote.Clock serverNote.Clock = 0
          · rw [if_pos h3] at h
            cases hM : serverNote.CRDT.Merge clientNote.CRDT with
            | none => rw [hM] at h; cases h
            | some merged =>
              rw [hM] at h
              simp only at h
              cases hSave : s.SaveNote { serverNote with
                  CRDT := merged
                  Clock := VectorClock.Update serverNote.Clock clientNote.Clock
                  Content := merged.Text
                  UpdatedAt := now } with
              | error e => rw [hSave] at h; cases h
              | ok s₂ =>
                rw [hSave] at h
                cases h
                exact saveNote_preserves_failGetAll hSave
          · rw [if_neg h3] at h; cases h; rfl

/-! Panic-freedom of reconciliation on non-negative positions. The only
panic in the modeled code is the negative-position slice in the replay loop
(established by the boundary analysis above), so logs whose positions are
all non-negative — the only logs the Go code itself ever builds from cursor
offsets — replay, apply and merge without panicking. -/

/-- An operation log whose positions are all non-negative. -/
def opsNonnegPos (ops : List Operation) : Prop :=
  ∀ op ∈ ops, (0 : Int) ≤ op.Position

/-- A note whose CRDT log has only non-negative positions. -/
def noteNonnegPos (n : Note) : Prop := opsNonnegPos n.CRDT.Operations

/-- A store in which every persisted note has only non-negative positions. -/
def storeNonnegPos (s : StoreState) : Prop :=
  ∀ kv ∈ s.notes, noteNonnegPos kv.2

-- The replay step only panics on a negative position.
theorem replayStep_some_of_nonneg (text : List Char) {op : Operation}
    (h : (0 : Int) ≤ op.Position) : ∃ t', replayStep text op = some t' := by
  unfold replayStep
  by_cases h1 : op.Type' = "insert"
  · rw [if_pos h1]
    by_cases h2 : op.Position ≤ (text.length : Int)
    · rw [if_pos h2, if_pos h]; exact ⟨_, rfl⟩
    · rw [if_neg h2]; exact ⟨_, rfl⟩
  · rw [if_neg h1]
    by_cases h3 : op.Type' = "delete"
    · rw [if_pos h3]
      by_cases h4 : op.Position < (text.length : Int)
      · rw [if_pos h4, if_pos h]; exact ⟨_, rfl⟩
      · rw [if_neg h4]; exact ⟨_, rfl⟩
    · rw [if_neg h3]; exact ⟨_, rfl⟩

-- Replay of a non-negative log never panics, from any starting text.
theorem foldlM_replayStep_some :
    ∀ {ops : List Operation}, (∀ op ∈ ops, (0 : Int) ≤ op.Position) →
      ∀ text : List Char, ∃ t', ops.foldlM replayStep text = some t' := by
  intro ops
  induction ops with
  | nil => intro _ text; exact ⟨text, rfl⟩
  | cons op rest ih =>
    intro h text
    obtain ⟨t', ht'⟩ := replayStep_some_of_nonneg text (h op (List.mem_cons_self _ _))
    obtain ⟨t'', ht''⟩ := ih (fun o ho => h o (List.mem_cons_of_mem _ ho)) t'
    have hstep : (op :: rest).foldlM replayStep text =
        (replayStep text op >>= fun t => rest.foldlM replayStep t) := rfl
    rw [hstep, ht']
    exact ⟨t'', ht''⟩

-- The bubbling insertion introduces no new elements.
theorem mem_insertRev {less : Operation → Operation → Bool} {x : Operation} :
    ∀ {l : List Operation} {y : Operation},
      y ∈ insertRev less x l → y = x ∨ y ∈ l := by
  intro l
  induction l with
  | nil =>
    intro y hy
    unfold insertRev at hy
    exact Or.inl (List.mem_singleton.mp hy)
  | cons z zs ih =>
    intro y hy
    unfold insertRev at hy
    by_cases hc : less x z
    · rw [if_pos hc] at hy
      rcases List.mem_cons.mp hy with h | h
      · exact Or.inr (List.mem_cons.mpr (Or.inl h))
      · rcases ih h with h' | h'
        · exact Or.inl h'
        · exact Or.inr (List.mem_cons.mpr (Or.inr h'))
    · rw [if_neg hc] at hy
      rcases List.mem_cons.mp hy with h | h
      · exact Or.inl h
      · exact Or.inr h

-- The sort permutes (in particular, never invents) operations.
theorem mem_sortOps {less : Operation → Operation → Bool} {l : List Operation}
    {y : Operation} (hy : y ∈ sortOps less l) : y ∈ l := by
  unfold sortOps at hy
  rw [List.mem_reverse] at hy
  have key : ∀ (l' acc : List Operation),
      y ∈ l'.foldl (fun acc x => insertRev less x acc) acc →
        y ∈ acc ∨ y ∈ l' := by
    intro l'
    induction l' with
    | nil => intro acc h; exact Or.inl h
    | cons x xs ih =>
      intro acc h
      rcases ih _ h with h' | h'
      · rcases mem_insertRev h' with h'' | h''
        · exact Or.inr (by simp [h''])
        · exact Or.inl h''
      · exact Or.inr (List.mem_cons_of_mem _ h')
  rcases key l [] hy with h | h
  · cases h
  · exact h

-- Rebuilding a non-negative log never panics.
theorem rebuildText_some_of_nonneg {ops : List Operation}
    (h : ∀ op ∈ ops, (0 : Int) ≤ op.Position) :
    ∃ t, rebuildText ops = some t := by
  obtain ⟨t', ht'⟩ := @foldlM_replayStep_some (sortOps opLess ops)
    (fun op hop => h op (mem_sortOps hop)) []
  exact ⟨t'.asString, by rw [rebuildText, replay, ht']; rfl⟩

-- Applying non-negative operations to a non-negative log never panics.
theorem applyOperations_some_of_nonneg :
    ∀ {ops : List Operation} {c : CRDT},
      opsNonnegPos c.Operations → opsNonnegPos ops →
      ∃ c', c.ApplyOperations ops = some c' := by
  intro ops
  induction ops with
  | nil => intro c _ _; exact ⟨c, rfl⟩
  | cons op rest ih =>
    intro c hc hops
    have happ : opsNonnegPos (c.Operations ++ [op]) := by
      intro o ho
      rcases List.mem_append.mp ho with h | h
      · exact hc o h
      · rw [List.mem_singleton.mp h]
        exact hops op (List.mem_cons_self _ _)
    obtain ⟨t, ht⟩ := rebuildText_some_of_nonneg happ
    have h₁ : c.ApplyOperation op = some
        { Operations := c.Operations ++ [op]
          Text := t
          Clock := VectorClock.Update c.Clock op.Clock } := by
      simp only [CRDT.ApplyOperation, ht]
    obtain ⟨c', hc'⟩ := @ih
        { Operations := c.Operations ++ [op]
          Text := t
          Clock := VectorClock.Update c.Clock op.Clock } happ
        (fun o ho => hops o (List.mem_cons_of_mem _ ho))
    have hcons : c.ApplyOperations (op :: rest) =
        (c.ApplyOperation op >>= fun b => b.ApplyOperations rest) := rfl
    rw [hcons, h₁]
    exact ⟨c', hc'⟩

-- Merging two non-negative logs never panics, and the merged log is again
-- non-negative.
theorem merge_some_of_nonneg {c other : CRDT}
    (hc : opsNonnegPos c.Operations) (ho : opsNonnegPos other.Operations) :
    ∃ m, c.Merge other = some m ∧ opsNonnegPos m.Operations := by
  have hnew : opsNonnegPos (other.Operations.filter fun op =>
      !(c.Operations.any fun o => o.ID == op.ID)) :=
    fun op hop => ho op (List.mem_filter.mp hop).1
  obtain ⟨m, hm⟩ := applyOperations_some_of_nonneg hc hnew
  refine ⟨m, hm, ?_⟩
  rw [applyOperations_ops hm]
  intro op hop
  rcases List.mem_append.mp hop with h | h
  · exact hc op h
  · exact hnew op h

-- Every binding produced by an upsert is the new note or an old binding.
theorem upsertNote_mem :
    ∀ {notes : List (String × Note)} {n : Note} {kv : String × Note},
      kv ∈ upsertNote notes n → kv.2 = n ∨ kv ∈ notes := by
  intro notes
  induction notes with
  | nil =>
    intro n kv h
    unfold upsertNote at h
    rw [List.mem_singleton.mp h]
    exact Or.inl rfl
  | cons kv₀ rest ih =>
    intro n kv h
    obtain ⟨k₀, n₀⟩ := kv₀
    unfold upsertNote at h
    by_cases hk : k₀ = n.ID
    · rw [if_pos hk] at h
      rcases List.mem_cons.mp h with h' | h'
      · rw [h']; exact Or.inl rfl
      · exact Or.inr (List.mem_cons_of_mem _ h')
    · rw [if_neg hk] at h
      rcases List.mem_cons.mp h with h' | h'
      · rw [h']; exact Or.inr (List.mem_cons_self _ _)
      · rcases ih h' with h'' | h''
        · exact Or.inl h''
        · exact Or.inr (List.mem_cons_of_mem _ h'')

-- Saving a non-negative note into a non-negative store keeps the store
-- non-negative.
theorem saveNote_nonneg {s s' : StoreState} {n : Note}
    (h : s.SaveNote n = .ok s') (hs : storeNonnegPos s)
    (hn : noteNonnegPos n) : storeNonnegPos s' := by
  unfold StoreState.SaveNote at h
  by_cases hf : s.failSave.contains n.ID
  · rw [if_pos hf] at h; cases h
  · rw [if_neg hf] at h
    cases h
    intro kv hkv
    rcases upsertNote_mem hkv with h' | h'
    · rw [h']; exact hn
    · exact hs kv h'

-- A successful load means the note is a stored binding.
theorem getNote_mem {s : StoreState} {id : String} {n : Note}
    (h : s.GetNote id = .ok (some n)) : (id, n) ∈ s.notes := by
  unfold StoreState.GetNote at h
  by_cases hf : s.failGet.contains id
  · rw [if_pos hf] at h; cases h
  · rw [if_neg hf] at h
    injection h with h
    exact notes_lookup_mem h

-- A panic comes out of `syncNote` only from a panicking `CRDT.Merge`.
theorem syncNote_panic_inv {s : StoreState} {clientNote : Note}
    {clientID : String} {lastSync : VectorClock} {now : Int}
    (h : Engine.syncNote s clientNote clientID lastSync now = .error .panic) :
    ∃ serverNote, s.GetNote clientNote.ID = .ok (some serverNote) ∧
      serverNote.CRDT.Merge clientNote.CRDT = none := by
  unfold Engine.syncNote at h
  cases hGet : s.GetNote clientNote.ID with
  | error e => rw [hGet] at h; cases h
  | ok serverNote? =>
    rw [hGet] at h
    cases serverNote? with
    | none =>
      cases hSave : s.SaveNote { clientNote with UpdatedAt := now } with
      | error e => rw [hSave] at h; cases h
      | ok s₂ => rw [hSave] at h; cases h
    | some serverNote =>
      simp only at h
      by_cases h1 : VectorClock.Compare clientNote.Clock serverNote.Clock = -1
      · rw [if_pos h1] at h; cases h
      · rw [if_neg h1] at h
        by_cases h2 : VectorClock.Compare clientNote.Clock serverNote.Clock = 1
        · rw [if_pos h2] at h
          cases hM : serverNote.CRDT.Merge clientNote.CRDT with
          | none => exact ⟨serverNote, rfl, hM⟩
          | some merged =>
            rw [hM] at h
            simp only at h
            cases hSave : s.SaveNote { serverNote with
                CRDT := merged
                Clock := VectorClock.Update serverNote.Clock clientNote.Clock
                Content := merged.Text
                UpdatedAt := now } with
            | error e => rw [hSave] at h; cases h
            | ok s₂ => rw [hSave] at h; cases h
        · rw [if_neg h2] at h
          by_cases h3 : VectorClock.Compare clientNote.Clock serverNote.Clock = 0
          · rw [if_pos h3] at h
            cases hM : serverNote.CRDT.Merge clientNote.CRDT with
            | none => exact ⟨serverNote, rfl, hM⟩
            | some merged =>
              rw [hM] at h
              simp only at h
              cases hSave : s.SaveNote { serverNote with
                  CRDT := merged
                  Clock := VectorClock.Update serverNote.Clock clientNote.Clock
                  Content := merged.Text
                  UpdatedAt := now } with
              | error e => rw [hSave] at h; cases h
              | ok s₂ => rw [hSave] at h; cases h
          · rw [if_neg h3] at h; cases h

-- On non-negative logs, `syncNote` never panics.
theorem syncNote_no_panic {s : StoreState} {clientNote : Note}
    {clientID : String} {lastSync : VectorClock} {now : Int}
    (hs : storeNonnegPos s) (hc : noteNonnegPos clientNote) :
    Engine.syncNote s clientNote clientID lastSync now ≠ .error .panic := by
  intro h
  obtain ⟨serverNote, hGet, hM⟩ := syncNote_panic_inv h
  have hsrv : noteNonnegPos serverNote := hs _ (getNote_mem hGet)
  obtain ⟨m, hm, -⟩ := merge_some_of_nonneg hsrv hc
  rw [hM] at hm
  cases hm

-- A successful `syncNote` keeps the store's logs non-negative.
theorem syncNote_ok_nonneg {s s' : StoreState} {clientNote : Note}
    {clientID : String} {lastSync : VectorClock} {now : Int}
    {c : Option Conflict}
    (hs : storeNonnegPos s) (hc : noteNonnegPos clientNote)
    (h : Engine.syncNote s clientNote clientID lastSync now = .ok (s', c)) :
    storeNonnegPos s' := by
  unfold Engine.syncNote at h
  cases hGet : s.GetNote clientNote.ID with
  | error e => rw [hGet] at h; cases h
  | ok serverNote? =>
    rw [hGet] at h
    cases serverNote? with
    | none =>
      cases hSave : s.SaveNote { clientNote with UpdatedAt := now } with
      | error e => rw [hSave] at h; cases h
      | ok s₂ =>
        rw [hSave] at h
        cases h
        exact saveNote_nonneg hSave hs hc
    | some serverNote =>
      have hsrv : noteNonnegPos serverNote := hs _ (getNote_mem hGet)
      simp only at h
      by_cases h1 : VectorClock.Compare clientNote.Clock serverNote.Clock = -1
      · rw [if_pos h1] at h; cases h; exact hs
      · rw [if_neg h1] at h
        by_cases h2 : VectorClock.Compare clientNote.Clock serverNote.Clock = 1
        · rw [if_pos h2] at h
          cases hM : serverNote.CRDT.Merge clientNote.CRDT with
          | none => rw [hM] at h; cases h
          | some merged =>
            rw [hM] at h
            simp only at h
            have hmn : opsNonnegPos merged.Operations := by
              obtain ⟨m, hm, hmn⟩ := merge_some_of_nonneg hsrv hc
              rw [hM] at hm
              cases hm
              exact hmn
            cases hSave : s.SaveNote { serverNote with
                CRDT := merged
                Clock := VectorClock.Update serverNote.Clock clientNote.Clock
                Content := merged.Text
                UpdatedAt := now } with
            | error e => rw [hSave] at h; cases h
            | ok s₂ =>
              rw [hSave] at h
              cases h
              exact saveNote_nonneg hSave hs hmn
        · rw [if_neg h2] at h
          by_cases h3 : VectorClock.Compare clientNote.Clock serverNote.Clock = 0
          · rw [if_pos h3] at h
            cases hM : serverNote.CRDT.Merge clientNote.CRDT with
            | none => rw [hM] at h; cases h
            | some merged =>
              rw [hM] at h
              simp only at h
              have hmn : opsNonnegPos merged.Operations := by
                obtain ⟨m, hm, hmn⟩ := merge_some_of_nonneg hsrv hc
                rw [hM] at hm
                cases hm
                exact hmn
              cases hSave : s.SaveNote { serverNote with
                  CRDT := merged
                  Clock := VectorClock.Update serverNote.Clock clientNote.Clock
                  Content := merged.Text
                  UpdatedAt := now } with
              | error e => rw [hSave] at h; cases h
              | ok s₂ =>
                rw [hSave] at h
                cases h
                exact saveNote_nonneg hSave hs hmn
          · rw [if_neg h3] at h; cases h; exact hs

-- On non-negative logs, the per-note loop never panics: it completes with
-- a store whose `GetAllNotes` failure flag is untouched and whose logs are
-- still non-negative.
theorem syncStep_fold_ok (clientID : String)
    (lastSyncMap : List (String × VectorClock)) (now : Int) :
    ∀ (notes : List Note) (s : StoreState) (cs : List Conflict),
      storeNonnegPos s → (∀ n ∈ notes, noteNonnegPos n) →
      ∃ s1 cs1,
        notes.foldl (Engine.syncStep clientID lastSyncMap now) (.ok (s, cs)) =
          .ok (s1, cs1) ∧ s1.failGetAll = s.failGetAll ∧ storeNonnegPos s1 := by
  intro notes
  induction notes with
  | nil => intro s cs hs _; exact ⟨s, cs, rfl, rfl, hs⟩
  | cons n rest ih =>
    intro s cs hs hn
    have hn0 : noteNonnegPos n := hn n (List.mem_cons_self _ _)
    have hnr : ∀ m ∈ rest, noteNonnegPos m :=
      fun m hm => hn m (List.mem_cons_of_mem _ hm)
    rw [List.foldl_cons]
    cases hsn : Engine.syncNote s n clientID
        ((lastSyncMap.lookup n.ID).getD []) now with
    | error e =>
      cases e with
      | storage msg =>
        have hstep : Engine.syncStep clientID lastSyncMap now (.ok (s, cs)) n =
            .ok (s, cs) := by
          unfold Engine.syncStep
          simp only
          rw [hsn]
        rw [hstep]
        exact ih s cs hs hnr
      | panic => exact absurd hsn (syncNote_no_panic hs hn0)
    | ok result =>
      obtain ⟨s', c?⟩ := result
      have hs' : storeNonnegPos s' := syncNote_ok_nonneg hs hn0 hsn
      have hflag : s'.failGetAll = s.failGetAll :=
        syncNote_preserves_failGetAll hsn
      cases c? with
      | none =>
        have hstep : Engine.syncStep clientID lastSyncMap now (.ok (s, cs)) n =
            .ok (s', cs) := by
          unfold Engine.syncStep
          simp only
          rw [hsn]
        rw [hstep]
        obtain ⟨s1, cs1, hf, hfl, hs1⟩ := ih s' cs hs' hnr
        exact ⟨s1, cs1, hf, by rw [hfl, hflag], hs1⟩
      | some conflict =>
        have hstep : Engine.syncStep clientID lastSyncMap now (.ok (s, cs)) n =
            .ok (s', cs ++ [conflict]) := by
          unfold Engine.syncStep
          simp only
          rw [hsn]
        rw [hstep]
        obtain ⟨s1, cs1, hf, hfl, hs1⟩ := ih s' (cs ++ [conflict]) hs' hnr
        exact ⟨s1, cs1, hf, by rw [hfl, hflag], hs1⟩

/-- C9 amended. A storage failure while reconciling a client-submitted note
(load or save inside `syncNote`) is logged and that note is skipped;
`Engine.Sync` still completes successfully — it does not propagate the
failure. The only storage failure `Sync` does return is the final
`GetAllNotes` read used to build the response: for every request over
operation logs with non-negative positions (the only logs the Go code
builds; a negative position instead panics, which unwinds out of `Sync`
rather than becoming an error), `Sync` succeeds exactly when that read
succeeds. -/
theorem sync_fails_only_on_getAllNotes (s : StoreState) (req : SyncRequest)
    (now : Int)
    (hs : ∀ kv ∈ s.notes, ∀ op ∈ kv.2.CRDT.Operations, (0 : Int) ≤ op.Position)
    (hreq : ∀ n ∈ req.Notes, ∀ op ∈ n.CRDT.Operations, (0 : Int) ≤ op.Position) :
    (Engine.Sync s req now).isOk = !s.failGetAll := by
  obtain ⟨s1, cs1, hfold, hflag, -⟩ :=
    syncStep_fold_ok req.ClientID req.LastSync now req.Notes s [] hs hreq
  unfold Engine.Sync
  rw [hfold]
  simp only
  unfold StoreState.GetAllNotes
  rw [hflag]
  cases hga : s.failGetAll with
  | true => rw [if_pos rfl]; rfl
  | false => rw [if_neg (by simp)]; rfl

/-- Witness for C9 amended, at the counterexample's own input: the store
fails to load note `"n"`, every log is empty (so non-negative), and `Sync`
nevertheless reports success. -/
theorem sync_fails_only_on_getAllNotes_witness :
    (Engine.Sync storeC9 reqC9 0).isOk = !storeC9.failGetAll :=
  sync_fails_only_on_getAllNotes storeC9 reqC9 0
    (by
      intro kv hkv op hop
      simp only [storeC9, List.mem_singleton] at hkv
      subst hkv
      simp [noteC9, NewCRDT] at hop)
    (by
      intro n hn op hop
      simp only [reqC9, List.mem_singleton] at hn
      subst hn
      simp [clientNoteC9, NewCRDT] at hop)
